import Mathlib

/-!
Shallow embedding of the persistence core of an RPG Maker MZ project editor:
`FileHandler` (atomic JSON writes with backup), `VersionSync` (the reload
ledger in `System.json`), `DatabaseManager` (generic CRUD over fixed-index
record arrays) and `ProjectManager.validate`.

Documents are modelled as parsed JSON values; the filesystem as a partial map
from path strings to values, plus a set of directories.  `JSON.stringify` is
deterministic on a fixed value, so equality of stored values models
byte-for-byte equality of file contents.  Logging calls are no-ops and are
omitted.  Operations thread the filesystem explicitly and return it in every
branch, so frame properties ("writes no file") are statable.
-/

/-- A parsed JSON value.  Numbers are modelled as integers (the code only
stores integral counters and ids).  Objects are association lists in key
order; `JSON.parse` yields unique keys. -/
inductive Json where
  | null : Json
  | bool : Bool → Json
  | num : Int → Json
  | str : String → Json
  | arr : List Json → Json
  | obj : List (String × Json) → Json

/-- The JavaScript test `e !== null` on an array slot. -/
def Json.isNull : Json → Bool
  | .null => true
  | _ => false

/-- First-match lookup in an object's field list (unique keys after parse). -/
def lookupField : List (String × Json) → String → Option Json
  | [], _ => none
  | (k', v) :: rest, k => if k' = k then some v else lookupField rest k

/-- JavaScript property assignment `o[k] = v` on a plain object: an existing
key keeps its position and gets the new value, a new key is appended. -/
def setFieldList (l : List (String × Json)) (k : String) (v : Json) :
    List (String × Json) :=
  if l.any (fun p => p.1 = k) then
    l.map (fun p => if p.1 = k then (k, v) else p)
  else l ++ [(k, v)]

/-- JavaScript object spread `\x7b...a, ...b\x7d`: fields of `b` are assigned
over `a` left to right, so `b` wins on conflicts. -/
def spread (a b : List (String × Json)) : List (String × Json) :=
  b.foldl (fun acc p => setFieldList acc p.1 p.2) a

/-- Property read `j[k]`; non-objects have no (enumerable JSON) properties. -/
def Json.getField : Json → String → Option Json
  | .obj l, k => lookupField l k
  | _, _ => none

/-- Property write `j[k] = v` as observable after `JSON.stringify`: on a
non-object the assignment never reaches the serialized output. -/
def Json.setField : Json → String → Json → Json
  | .obj l, k, v => .obj (setFieldList l k v)
  | j, _, _ => j

/-- The own enumerable fields seen by an object spread; non-objects
contribute none. -/
def Json.objFields : Json → List (String × Json)
  | .obj l => l
  | _ => []

/-- The filesystem: JSON files by path, and a set of directories. -/
structure FS where
  files : String → Option Json
  dirs : String → Bool

/-- Store a file at a path. -/
def FS.set (fs : FS) (p : String) (v : Json) : FS :=
  { fs with files := fun q => if q = p then some v else fs.files q }

/-- Remove the file at a path. -/
def FS.erase (fs : FS) (p : String) : FS :=
  { fs with files := fun q => if q = p then none else fs.files q }

/-- `fs.access(p)` succeeds for a file or a directory. -/
def FS.exists (fs : FS) (p : String) : Bool :=
  (fs.files p).isSome || fs.dirs p

/-- `path.join(a, b)` for the forward-slash paths used throughout. -/
def pjoin (a b : String) : String := a ++ "/" ++ b

/-- The typed failures of the core (thrown `Error`s in the source). -/
inductive Err where
  | ioError : Err
  | notFound : Err
  | protectedErr : Err
  | typeErr : Err

/-- FileHandler.readJsonRaw: read and parse, no validation; a missing file
is an I/O failure. -/
def FileHandler.readJsonRaw (fs : FS) (p : String) : Except Err Json :=
  match fs.files p with
  | some j => .ok j
  | none => .error .ioError

/-- FileHandler.writeJson with an oracle for whether the backup copy throws.
The source wraps `access` + `copyFile` in one catch-all and proceeds either
way, then writes `p + ".tmp"` and renames it onto `p`.  The write itself is
assumed to succeed; only the backup copy can fail, and that failure is
swallowed exactly as in the source. -/
def FileHandler.writeJsonWith (copyFails : Bool) (fs : FS) (p : String)
    (d : Json) : FS :=
  let fs1 :=
    match fs.files p with
    | some old => if copyFails then fs else fs.set (p ++ ".bak") old
    | none => fs
  let fs2 := fs1.set (p ++ ".tmp") d
  (fs2.erase (p ++ ".tmp")).set p d

/-- FileHandler.writeJson on the happy path (backup copy succeeds). -/
def FileHandler.writeJson (fs : FS) (p : String) (d : Json) : FS :=
  FileHandler.writeJsonWith false fs p d

/-- The counter read `typeof system.versionId === "number" ? ... : 0`. -/
def versionIdOf (system : Json) : Int :=
  match system.getField "versionId" with
  | some (.num n) => n
  | _ => 0

/-- VersionSync.bump: read the ledger raw, increment `versionId`, write the
whole document back, return the new value. -/
def VersionSync.bump (fs : FS) (sp : String) : FS × Except Err Int :=
  match FileHandler.readJsonRaw fs sp with
  | .error e => (fs, .error e)
  | .ok system =>
    let next := versionIdOf system + 1
    (FileHandler.writeJson fs sp (system.setField "versionId" (.num next)),
     .ok next)

/-- VersionSync.current: read the counter without mutating; threads the
filesystem so frame properties are statable. -/
def VersionSync.current (fs : FS) (sp : String) : FS × Except Err Int :=
  match FileHandler.readJsonRaw fs sp with
  | .error e => (fs, .error e)
  | .ok system => (fs, .ok (versionIdOf system))

/-- DatabaseManager.readArray: raw read cast to an array.  The cast is
unchecked in the source; a non-array document is modelled as a typed
failure. -/
def DatabaseManager.readArray (fs : FS) (dp : String) :
    Except Err (List Json) :=
  match FileHandler.readJsonRaw fs dp with
  | .ok (.arr l) => .ok l
  | .ok _ => .error .typeErr
  | .error e => .error e

/-- DatabaseManager.writeArray: persist the array, then bump the ledger. -/
def DatabaseManager.writeArray (fs : FS) (dp sp : String) (l : List Json) :
    FS × Except Err Unit :=
  let fs1 := FileHandler.writeJson fs dp (.arr l)
  match VersionSync.bump fs1 sp with
  | (fs2, .ok _) => (fs2, .ok ())
  | (fs2, .error e) => (fs2, .error e)

/-- Slot access `arr[id]` (only used below a bounds check). -/
def slotAt (l : List Json) (id : Nat) : Json := (l.getD id Json.null)

/-- DatabaseManager.list: all slots with `e !== null`, in slot order. -/
def DatabaseManager.list (fs : FS) (dp : String) :
    FS × Except Err (List Json) :=
  match DatabaseManager.readArray fs dp with
  | .ok l => (fs, .ok (l.filter (fun e => !e.isNull)))
  | .error e => (fs, .error e)

/-- DatabaseManager.get: the record at slot `id`, not-found when out of
bounds or a sentinel slot. -/
def DatabaseManager.get (fs : FS) (dp : String) (id : Nat) :
    FS × Except Err Json :=
  match DatabaseManager.readArray fs dp with
  | .error e => (fs, .error e)
  | .ok l =>
    if id < 1 ∨ l.length ≤ id ∨ (slotAt l id).isNull then
      (fs, .error .notFound)
    else (fs, .ok (slotAt l id))

/-- DatabaseManager.create: id is the current length; the entity is the
default record overlaid with the caller's fields, id forced; append,
persist, bump. -/
def DatabaseManager.create (F : Nat → List (String × Json)) (fs : FS)
    (dp sp : String) (d : List (String × Json)) :
    FS × Except Err (Nat × Json) :=
  match DatabaseManager.readArray fs dp with
  | .error e => (fs, .error e)
  | .ok l =>
    let id := l.length
    let entity := Json.obj (setFieldList (spread (F id) d) "id" (.num id))
    match DatabaseManager.writeArray fs dp sp (l ++ [entity]) with
    | (fs2, .ok _) => (fs2, .ok (id, entity))
    | (fs2, .error e) => (fs2, .error e)

/-- DatabaseManager.update: shallow-merge the partial over the existing
record, id pinned to the original; persist, bump. -/
def DatabaseManager.update (fs : FS) (dp sp : String) (id : Nat)
    (d : List (String × Json)) : FS × Except Err Json :=
  match DatabaseManager.readArray fs dp with
  | .error e => (fs, .error e)
  | .ok l =>
    if id < 1 ∨ l.length ≤ id ∨ (slotAt l id).isNull then
      (fs, .error .notFound)
    else
      let updated :=
        Json.obj (setFieldList (spread (slotAt l id).objFields d) "id"
          (.num id))
      match DatabaseManager.writeArray fs dp sp (l.set id updated) with
      | (fs2, .ok _) => (fs2, .ok updated)
      | (fs2, .error e) => (fs2, .error e)

/-- DatabaseManager.delete: refuse id 1 when protected, before any read;
otherwise null the slot (never truncate), persist, bump. -/
def DatabaseManager.delete (fs : FS) (dp sp : String) (id : Nat)
    (protectFirst : Bool) : FS × Except Err Unit :=
  if protectFirst && id == 1 then (fs, .error .protectedErr)
  else
    match DatabaseManager.readArray fs dp with
    | .error e => (fs, .error e)
    | .ok l =>
      if id < 1 ∨ l.length ≤ id ∨ (slotAt l id).isNull then
        (fs, .error .notFound)
      else DatabaseManager.writeArray fs dp sp (l.set id Json.null)

/-- `needle` starts `hay` (charwise), as in `String.prototype.includes`. -/
def listStartsWith : List Char → List Char → Bool
  | [], _ => true
  | _ :: _, [] => false
  | a :: as, b :: bs => a == b && listStartsWith as bs

/-- `needle` occurs contiguously in `hay`. -/
def listHasSub (needle : List Char) : List Char → Bool
  | [] => listStartsWith needle []
  | hay@(_ :: rest) => listStartsWith needle hay || listHasSub needle rest

/-- JavaScript `hay.includes(needle)`. -/
def strIncludes (hay needle : String) : Bool :=
  listHasSub needle.data hay.data

/-- DatabaseManager.search: case-insensitive substring match of the query
against the named fields of every listed record; non-strings are skipped. -/
def DatabaseManager.search (fs : FS) (dp : String) (query : String)
    (fields : List String) : FS × Except Err (List Json) :=
  match DatabaseManager.list fs dp with
  | (fs2, .error e) => (fs2, .error e)
  | (fs2, .ok entities) =>
    let lowerQuery := query.toLower
    (fs2, .ok (entities.filter (fun entity =>
      fields.any (fun f =>
        match entity.getField f with
        | some (.str s) => strIncludes s.toLower lowerQuery
        | _ => false))))

/-- The fixed required-file list of ProjectManager. -/
def REQUIRED_DATA_FILES : List String :=
  ["Actors.json", "Classes.json", "CommonEvents.json", "Enemies.json",
   "Items.json", "MapInfos.json", "Skills.json", "States.json",
   "System.json", "Tilesets.json", "Troops.json", "Weapons.json",
   "Armors.json", "Animations.json"]

/-- Accepted project marker file names (both casings). -/
def PROJECT_FILES : List String := ["game.rmmzproject", "Game.rmmzproject"]

/-- ProjectManager.validate: marker check, then data directory (returning
immediately when absent), then each required data file. -/
def ProjectManager.validate (fs : FS) (pp : String) : Bool × List String :=
  let foundProjectFile := PROJECT_FILES.any (fun n => fs.exists (pjoin pp n))
  let errors1 :=
    if foundProjectFile then [] else ["Missing project file: game.rmmzproject"]
  let dataDir := pjoin pp "data"
  if !fs.exists dataDir then (false, errors1 ++ ["Missing data/ directory"])
  else
    let errors2 := errors1 ++
      (REQUIRED_DATA_FILES.filter (fun f => !fs.exists (pjoin dataDir f))).map
        (fun f => "Missing data file: " ++ f)
    (errors2.isEmpty, errors2)

/-- A mutating operation of the Entity Collection Manager. -/
inductive Op where
  | create (d : List (String × Json)) : Op
  | update (id : Nat) (d : List (String × Json)) : Op
  | delete (id : Nat) (protectFirst : Bool) : Op

/-- Run one mutating operation, keeping only the filesystem and success. -/
def runOp (F : Nat → List (String × Json)) (dp sp : String) (fs : FS) :
    Op → FS × Except Err Unit
  | .create d =>
    match DatabaseManager.create F fs dp sp d with
    | (fs2, .ok _) => (fs2, .ok ())
    | (fs2, .error e) => (fs2, .error e)
  | .update id d =>
    match DatabaseManager.update fs dp sp id d with
    | (fs2, .ok _) => (fs2, .ok ())
    | (fs2, .error e) => (fs2, .error e)
  | .delete id pf => DatabaseManager.delete fs dp sp id pf

/-- Run a sequence of mutating operations; `none` when any of them fails. -/
def runOps (F : Nat → List (String × Json)) (dp sp : String) (fs : FS) :
    List Op → Option FS
  | [] => some fs
  | op :: rest =>
    match runOp F dp sp fs op with
    | (fs2, .ok _) => runOps F dp sp fs2 rest
    | (_, .error _) => none

/-- The number of creates in a sequence of mutating operations. -/
def countCreates (ops : List Op) : Nat :=
  ops.countP (fun op => match op with | .create _ => true | _ => false)

/-- The six path disjointness facts making the entity document and the
ledger document independent files (true of `data/X.json` vs
`data/System.json` for any `X ≠ System`). -/
def PathsSeparate (dp sp : String) : Prop :=
  dp ≠ sp ∧ dp ≠ sp ++ ".bak" ∧ dp ≠ sp ++ ".tmp" ∧
  sp ≠ dp ++ ".bak" ∧ sp ≠ dp ++ ".tmp" ∧ dp ++ ".bak" ≠ sp ++ ".tmp" ∧
  dp ++ ".tmp" ≠ sp ++ ".bak"

theorem append_len_ne (p t : String) (h : t.length ≠ 0) : p ++ t ≠ p := by
  intro he
  have hl := congrArg String.length he
  rw [String.length_append] at hl
  omega

theorem append_cancel_left {p s t : String} (h : p ++ s = p ++ t) : s = t := by
  have hd := congrArg String.data h
  rw [String.data_append, String.data_append] at hd
  exact String.ext (List.append_cancel_left hd)

theorem bak_ne_self (p : String) : p ++ ".bak" ≠ p :=
  append_len_ne p ".bak" (by decide)

theorem tmp_ne_self (p : String) : p ++ ".tmp" ≠ p :=
  append_len_ne p ".tmp" (by decide)

theorem bak_ne_tmp (p : String) : p ++ ".bak" ≠ p ++ ".tmp" := by
  intro h
  have : (".bak" : String) = ".tmp" := append_cancel_left h
  simp at this

theorem FS.set_files (fs : FS) (p q : String) (v : Json) :
    (fs.set p v).files q = if q = p then some v else fs.files q := rfl

theorem FS.erase_files (fs : FS) (p q : String) :
    (fs.erase p).files q = if q = p then none else fs.files q := rfl

theorem writeJsonWith_files_self (c : Bool) (fs : FS) (p : String) (d : Json) :
    (FileHandler.writeJsonWith c fs p d).files p = some d := by
  simp [FileHandler.writeJsonWith, FS.set_files]

theorem writeJsonWith_files_tmp (c : Bool) (fs : FS) (p : String) (d : Json) :
    (FileHandler.writeJsonWith c fs p d).files (p ++ ".tmp") = none := by
  simp [FileHandler.writeJsonWith, FS.set_files, FS.erase_files, tmp_ne_self p]

theorem writeJson_files_bak (fs : FS) (p : String) (d old : Json)
    (h : fs.files p = some old) :
    (FileHandler.writeJson fs p d).files (p ++ ".bak") = some old := by
  simp [FileHandler.writeJson, FileHandler.writeJsonWith, h, FS.set_files,
    FS.erase_files, bak_ne_self p, bak_ne_tmp p]

theorem writeJsonWith_files_other (c : Bool) (fs : FS) (p : String) (d : Json)
    (q : String) (h1 : q ≠ p) (h2 : q ≠ p ++ ".bak") (h3 : q ≠ p ++ ".tmp") :
    (FileHandler.writeJsonWith c fs p d).files q = fs.files q := by
  unfold FileHandler.writeJsonWith
  cases hf : fs.files p <;> cases c <;>
    simp [FS.set_files, FS.erase_files, h1, h2, h3]

theorem writeJson_files_other (fs : FS) (p : String) (d : Json)
    (q : String) (h1 : q ≠ p) (h2 : q ≠ p ++ ".bak") (h3 : q ≠ p ++ ".tmp") :
    (FileHandler.writeJson fs p d).files q = fs.files q :=
  writeJsonWith_files_other false fs p d q h1 h2 h3

theorem lookupField_not_mem {l : List (String × Json)} {k : String}
    (h : k ∉ l.map Prod.fst) : lookupField l k = none := by
  induction l with
  | nil => rfl
  | cons p rest ih =>
    simp only [List.map_cons, List.mem_cons, not_or] at h
    obtain ⟨k', v⟩ := p
    simp only [lookupField]
    rw [if_neg (fun he => h.1 he.symm)]
    exact ih h.2

theorem lookupField_mapSet (l : List (String × Json)) (k : String) (v : Json)
    (h : l.any (fun p => p.1 = k) = true) :
    lookupField (l.map (fun p => if p.1 = k then (k, v) else p)) k = some v := by
  induction l with
  | nil => simp at h
  | cons p rest ih =>
    obtain ⟨k', w⟩ := p
    by_cases hp : k' = k
    · subst hp
      rw [List.map_cons, if_pos (show ((k', w) : String × Json).1 = k' from
        rfl)]
      simp [lookupField]
    · have hr : rest.any (fun p => p.1 = k) = true := by
        simpa [List.any_cons, hp] using h
      rw [List.map_cons, if_neg (show ¬ ((k', w) : String × Json).1 = k from
        hp)]
      simp [lookupField, hp, ih hr]

theorem lookupField_append_single (l : List (String × Json)) (k : String)
    (v : Json) (h : l.any (fun p => p.1 = k) = false) :
    lookupField (l ++ [(k, v)]) k = some v := by
  induction l with
  | nil => simp [lookupField]
  | cons p rest ih =>
    obtain ⟨k', w⟩ := p
    simp only [List.any_cons, Bool.or_eq_false_iff] at h
    have hp : ¬ k' = k := by simpa using h.1
    simp [lookupField, hp, ih h.2]

theorem lookupField_setFieldList_self (l : List (String × Json)) (k : String)
    (v : Json) : lookupField (setFieldList l k v) k = some v := by
  unfold setFieldList
  by_cases h : l.any (fun p => p.1 = k) = true
  · rw [if_pos h]
    exact lookupField_mapSet l k v h
  · rw [if_neg h]
    exact lookupField_append_single l k v (Bool.eq_false_iff.mpr h)

theorem lookupField_mapSet_ne (l : List (String × Json)) (k : String)
    (v : Json) (k' : String) (h : k' ≠ k) :
    lookupField (l.map (fun p => if p.1 = k then (k, v) else p)) k' =
      lookupField l k' := by
  induction l with
  | nil => rfl
  | cons p rest ih =>
    obtain ⟨k1, w⟩ := p
    by_cases hp : k1 = k
    · subst hp
      rw [List.map_cons,
        if_pos (show ((k1, w) : String × Json).1 = k1 from rfl)]
      have hne : ¬ (k1 = k') := fun he => h (he.symm)
      simp [lookupField, hne, ih]
    · rw [List.map_cons, if_neg (show ¬ ((k1, w) : String × Json).1 = k from
        hp)]
      simp [lookupField, ih]

theorem lookupField_append_single_ne (l : List (String × Json)) (k : String)
    (v : Json) (k' : String) (h : k' ≠ k) :
    lookupField (l ++ [(k, v)]) k' = lookupField l k' := by
  induction l with
  | nil =>
    have hne : ¬ (k = k') := fun he => h (he.symm)
    simp [lookupField, hne]
  | cons p rest ih =>
    obtain ⟨k1, w⟩ := p
    simp [lookupField, ih]

theorem lookupField_setFieldList_ne (l : List (String × Json)) (k : String)
    (v : Json) (k' : String) (h : k' ≠ k) :
    lookupField (setFieldList l k v) k' = lookupField l k' := by
  unfold setFieldList
  by_cases hl : l.any (fun p => p.1 = k) = true
  · rw [if_pos hl]
    exact lookupField_mapSet_ne l k v k' h
  · rw [if_neg hl]
    exact lookupField_append_single_ne l k v k' h

/-- Left-biased choice of optional fields, matching merge precedence. -/
def optOr (a b : Option Json) : Option Json :=
  match a with
  | some v => some v
  | none => b

theorem spread_cons (a : List (String × Json)) (k1 : String) (v1 : Json)
    (rest : List (String × Json)) :
    spread a ((k1, v1) :: rest) = spread (setFieldList a k1 v1) rest := rfl

theorem lookupField_spread (a b : List (String × Json)) (k : String)
    (hb : (b.map Prod.fst).Nodup) :
    lookupField (spread a b) k = optOr (lookupField b k) (lookupField a k) := by
  induction b generalizing a with
  | nil => simp [spread, optOr, lookupField]
  | cons p rest ih =>
    obtain ⟨k1, v1⟩ := p
    simp only [List.map_cons, List.nodup_cons] at hb
    rw [spread_cons, ih (setFieldList a k1 v1) hb.2]
    by_cases hk : k1 = k
    · subst hk
      rw [lookupField_not_mem hb.1]
      simp [optOr, lookupField, lookupField_setFieldList_self]
    · rw [lookupField_setFieldList_ne a k1 v1 k (fun he => hk he.symm)]
      simp [optOr, lookupField, hk]

theorem versionIdOf_setField (j : Json) (flds : List (String × Json))
    (hj : j = .obj flds) (n : Int) :
    versionIdOf (j.setField "versionId" (.num n)) = n := by
  subst hj
  simp [Json.setField, versionIdOf, Json.getField,
    lookupField_setFieldList_self]

theorem getField_setField_ne (flds : List (String × Json)) (k : String)
    (v : Json) (k' : String) (h : k' ≠ k) :
    (Json.setField (.obj flds) k v).getField k' =
      (Json.obj flds).getField k' := by
  simp [Json.setField, Json.getField, lookupField_setFieldList_ne _ _ _ _ h]

theorem bump_eq (fs : FS) (sp : String) (sys : Json)
    (h : fs.files sp = some sys) :
    VersionSync.bump fs sp =
      (FileHandler.writeJson fs sp
        (sys.setField "versionId" (.num (versionIdOf sys + 1))),
       .ok (versionIdOf sys + 1)) := by
  simp [VersionSync.bump, FileHandler.readJsonRaw, h]

theorem current_eq (fs : FS) (sp : String) (sys : Json)
    (h : fs.files sp = some sys) :
    VersionSync.current fs sp = (fs, .ok (versionIdOf sys)) := by
  simp [VersionSync.current, FileHandler.readJsonRaw, h]

theorem writeArray_eq (fs : FS) (dp sp : String) (l : List Json)
    (sflds : List (String × Json)) (sep : PathsSeparate dp sp)
    (hs : fs.files sp = some (.obj sflds)) :
    DatabaseManager.writeArray fs dp sp l =
      (FileHandler.writeJson (FileHandler.writeJson fs dp (.arr l)) sp
        (Json.obj (setFieldList sflds "versionId"
          (.num (versionIdOf (.obj sflds) + 1)))),
       .ok ()) ∧
    (DatabaseManager.writeArray fs dp sp l).1.files dp = some (.arr l) ∧
    (DatabaseManager.writeArray fs dp sp l).1.files sp =
      some (Json.obj (setFieldList sflds "versionId"
        (.num (versionIdOf (.obj sflds) + 1)))) := by
  obtain ⟨s1, s2, s3, s4, s5, s6, s7⟩ := sep
  have hs1 : (FileHandler.writeJson fs dp (.arr l)).files sp =
      some (.obj sflds) := by
    rw [writeJson_files_other fs dp (.arr l) sp s1.symm s4 s5]
    exact hs
  have hb := bump_eq (FileHandler.writeJson fs dp (.arr l)) sp (.obj sflds) hs1
  have hw : DatabaseManager.writeArray fs dp sp l =
      (FileHandler.writeJson (FileHandler.writeJson fs dp (.arr l)) sp
        (Json.obj (setFieldList sflds "versionId"
          (.num (versionIdOf (.obj sflds) + 1)))),
       .ok ()) := by
    simp only [DatabaseManager.writeArray]
    rw [hb]
    rfl
  refine ⟨hw, ?_, ?_⟩
  · rw [hw]
    rw [writeJson_files_other _ sp _ dp s1 s2 s3]
    exact writeJsonWith_files_self false fs dp (.arr l)
  · rw [hw]
    exact writeJsonWith_files_self false _ sp _

theorem versionIdOf_obj_set (sflds : List (String × Json)) (n : Int) :
    versionIdOf (.obj (setFieldList sflds "versionId" (.num n))) = n := by
  simp [versionIdOf, Json.getField, lookupField_setFieldList_self]

theorem writeArray_ok (fs : FS) (dp sp : String) (l : List Json)
    (sflds : List (String × Json)) (sep : PathsSeparate dp sp)
    (hs : fs.files sp = some (.obj sflds)) :
    ∃ fsw, DatabaseManager.writeArray fs dp sp l = (fsw, .ok ()) ∧
      fsw.files dp = some (.arr l) ∧
      fsw.files sp = some (Json.obj (setFieldList sflds "versionId"
        (.num (versionIdOf (.obj sflds) + 1)))) := by
  obtain ⟨hw, h1, h2⟩ := writeArray_eq fs dp sp l sflds sep hs
  refine ⟨(DatabaseManager.writeArray fs dp sp l).1, ?_, h1, h2⟩
  rw [hw]

theorem readArray_eq (fs : FS) (dp : String) (l : List Json)
    (hd : fs.files dp = some (.arr l)) :
    DatabaseManager.readArray fs dp = .ok l := by
  simp [DatabaseManager.readArray, FileHandler.readJsonRaw, hd]

theorem runOp_ok_state (F : Nat → List (String × Json)) (dp sp : String)
    (fs fs2 : FS) (op : Op) (l : List Json) (sflds : List (String × Json))
    (sep : PathsSeparate dp sp)
    (hd : fs.files dp = some (.arr l)) (hs : fs.files sp = some (.obj sflds))
    (h : runOp F dp sp fs op = (fs2, .ok ())) :
    ∃ l2, fs2.files dp = some (.arr l2) ∧
      fs2.files sp = some (Json.obj (setFieldList sflds "versionId"
        (.num (versionIdOf (.obj sflds) + 1)))) ∧
      l2.length = l.length + countCreates [op] := by
  have hra := readArray_eq fs dp l hd
  cases op with
  | create d =>
    obtain ⟨fsw, hw, h1, h2⟩ := writeArray_ok fs dp sp
      (l ++ [Json.obj (setFieldList (spread (F l.length) d) "id"
        (.num l.length))]) sflds sep hs
    have hro : runOp F dp sp fs (.create d) = (fsw, .ok ()) := by
      simp only [runOp, DatabaseManager.create, hra, hw]
    rw [hro] at h
    have hfs : fsw = fs2 := congrArg Prod.fst h
    subst hfs
    refine ⟨_, h1, h2, ?_⟩
    have hc1 : countCreates [Op.create d] = 1 := rfl
    rw [hc1]
    simp
  | update id d =>
    by_cases hcond : id < 1 ∨ l.length ≤ id ∨ (slotAt l id).isNull = true
    · have hro : runOp F dp sp fs (.update id d) = (fs, .error .notFound) := by
        simp only [runOp, DatabaseManager.update, hra]
        rw [if_pos hcond]
      rw [hro] at h
      exact absurd (congrArg Prod.snd h) (by simp)
    · obtain ⟨fsw, hw, h1, h2⟩ := writeArray_ok fs dp sp
        (l.set id (Json.obj (setFieldList (spread (slotAt l id).objFields d)
          "id" (.num id)))) sflds sep hs
      have hro : runOp F dp sp fs (.update id d) = (fsw, .ok ()) := by
        simp only [runOp, DatabaseManager.update, hra]
        rw [if_neg hcond, hw]
      rw [hro] at h
      have hfs : fsw = fs2 := congrArg Prod.fst h
      subst hfs
      refine ⟨_, h1, h2, ?_⟩
      have hc0 : countCreates [Op.update id d] = 0 := rfl
      rw [hc0]
      simp
  | delete id pf =>
    by_cases hpf : (pf && id == 1) = true
    · have hro : runOp F dp sp fs (.delete id pf) = (fs, .error .protectedErr) := by
        simp only [runOp, DatabaseManager.delete]
        rw [if_pos hpf]
      rw [hro] at h
      exact absurd (congrArg Prod.snd h) (by simp)
    · by_cases hcond : id < 1 ∨ l.length ≤ id ∨ (slotAt l id).isNull = true
      · have hro : runOp F dp sp fs (.delete id pf) = (fs, .error .notFound) := by
          simp only [runOp, DatabaseManager.delete]
          rw [if_neg hpf]
          simp only [hra]
          rw [if_pos hcond]
        rw [hro] at h
        exact absurd (congrArg Prod.snd h) (by simp)
      · obtain ⟨fsw, hw, h1, h2⟩ := writeArray_ok fs dp sp
          (l.set id Json.null) sflds sep hs
        have hro : runOp F dp sp fs (.delete id pf) = (fsw, .ok ()) := by
          simp only [runOp, DatabaseManager.delete]
          rw [if_neg hpf]
          simp only [hra]
          rw [if_neg hcond, hw]
        rw [hro] at h
        have hfs : fsw = fs2 := congrArg Prod.fst h
        subst hfs
        refine ⟨_, h1, h2, ?_⟩
        have hc0 : countCreates [Op.delete id pf] = 0 := rfl
        rw [hc0]
        simp

theorem runOps_state (F : Nat → List (String × Json)) (dp sp : String)
    (sep : PathsSeparate dp sp) :
    ∀ (ops : List Op) (fs fs' : FS) (l : List Json)
      (sflds : List (String × Json)),
      fs.files dp = some (.arr l) → fs.files sp = some (.obj sflds) →
      runOps F dp sp fs ops = some fs' →
      ∃ l2 sflds2, fs'.files dp = some (.arr l2) ∧
        fs'.files sp = some (.obj sflds2) ∧
        versionIdOf (.obj sflds2) = versionIdOf (.obj sflds) + ops.length ∧
        l2.length = l.length + countCreates ops := by
  intro ops
  induction ops with
  | nil =>
    intro fs fs' l sflds hd hs hr
    simp only [runOps, Option.some.injEq] at hr
    subst hr
    exact ⟨l, sflds, hd, hs, by simp, by simp [countCreates]⟩
  | cons op rest ih =>
    intro fs fs' l sflds hd hs hr
    simp only [runOps] at hr
    rcases hro : runOp F dp sp fs op with ⟨fsm, r⟩
    rw [hro] at hr
    cases r with
    | error e => simp at hr
    | ok u =>
      cases u
      obtain ⟨l2, hd2, hs2, hlen2⟩ :=
        runOp_ok_state F dp sp fs fsm op l sflds sep hd hs hro
      obtain ⟨l3, sflds3, hd3, hs3, hv3, hlen3⟩ :=
        ih fsm fs' l2 _ hd2 hs2 hr
      refine ⟨l3, sflds3, hd3, hs3, ?_, ?_⟩
      · rw [hv3, versionIdOf_obj_set]
        simp only [List.length_cons]
        push_cast
        ring
      · rw [hlen3, hlen2]
        have hcc : countCreates (op :: rest) =
            countCreates [op] + countCreates rest := by
          simp [countCreates, List.countP_cons]
          omega
        rw [hcc]
        omega

/-- Entity document path of the test project (mirrors the test fixtures). -/
def dpT : String := "proj/data/TestEntities.json"

/-- Ledger document path of the test project. -/
def spT : String := "proj/data/System.json"

/-- The seeded record with id 1. -/
def recFirst : Json :=
  .obj [("id", .num 1), ("name", .str "First"), ("value", .num 10)]

/-- The seeded entity document `[null, recFirst]`. -/
def itemsDocT : Json := .arr [Json.null, recFirst]

/-- Ledger fields of the test project. -/
def sfldsT : List (String × Json) :=
  [("versionId", .num 0), ("gameTitle", .str "Test")]

/-- The ledger document of the test project. -/
def sysDocT : Json := .obj sfldsT

/-- The test filesystem: seeded entity document plus ledger. -/
def fsT : FS :=
  { files := fun q =>
      if q = dpT then some itemsDocT
      else if q = spT then some sysDocT else none,
    dirs := fun _ => false }

/-- The test default-record factory (`defaultTestEntity` in the tests). -/
def FT : Nat → List (String × Json) :=
  fun id => [("id", .num id), ("name", .str ""), ("value", .num 0)]

/-- C1: after two successive writes of X1 then X2 to the same path, the
path holds exactly X2, the `.bak` sibling holds exactly X1, and no `.tmp`
file remains. -/
theorem C1_write_write_atomicity (fs : FS) (D : String) (X1 X2 : Json) :
    ((FileHandler.writeJson (FileHandler.writeJson fs D X1) D X2).files D
      = some X2) ∧
    ((FileHandler.writeJson (FileHandler.writeJson fs D X1) D X2).files
      (D ++ ".bak") = some X1) ∧
    ((FileHandler.writeJson (FileHandler.writeJson fs D X1) D X2).files
      (D ++ ".tmp") = none) :=
  ⟨writeJsonWith_files_self false _ D X2,
   writeJson_files_bak _ D X2 X1 (writeJsonWith_files_self false fs D X1),
   writeJsonWith_files_tmp false _ D X2⟩

/-- C5: Delete(1, protectFirst=true) fails with the Protected error before
touching the filesystem at all: the returned state is the input state, so
the document, its backup, and the ledger are all byte-for-byte unchanged. -/
theorem C5_protected_delete (fs : FS) (dp sp : String) :
    DatabaseManager.delete fs dp sp 1 true = (fs, .error .protectedErr) := rfl

/-- The concrete state for the backup-failure run: one document containing
the value 1. -/
def c6fs : FS :=
  { files := fun q => if q = "doc.json" then some (.num 1) else none,
    dirs := fun _ => false }

/-- C6: contrary to the claim, when the file exists and the backup copy
fails, writeJson does not abort: the catch-all swallows the copy error, the
temp write and rename proceed, the target is overwritten with the new data,
no backup exists, and no error reaches the caller (the returned state is a
plain result, not a failure). -/
theorem C6_backup_failure_behavior :
    c6fs.files "doc.json" = some (.num 1) ∧
    (FileHandler.writeJsonWith true c6fs "doc.json" (.num 2)).files
      "doc.json" = some (.num 2) ∧
    (FileHandler.writeJsonWith true c6fs "doc.json" (.num 2)).files
      "doc.json.bak" = none ∧
    (FileHandler.writeJsonWith true c6fs "doc.json" (.num 2)).files
      "doc.json.tmp" = none :=
  ⟨rfl, rfl, rfl, rfl⟩

/-- The empty candidate project directory. -/
def c9fsEmpty : FS := { files := fun _ => none, dirs := fun _ => false }

/-- C9 counterexample: on a root missing both the marker file and the data
directory, validate returns two error strings, not only
"Missing data/ directory" as the claim states for every such root. -/
theorem C9_counterexample :
    ProjectManager.validate c9fsEmpty "proj" =
      (false, ["Missing project file: game.rmmzproject",
               "Missing data/ directory"]) ∧
    (["Missing project file: game.rmmzproject", "Missing data/ directory"] ≠
      (["Missing data/ directory"] : List String)) :=
  ⟨rfl, by decide⟩

/-- C9 (amended): on a root that has a project marker file but no data
directory, validate short-circuits and returns exactly the single error
"Missing data/ directory". -/
theorem C9_validate_missing_data (fs : FS) (pp : String)
    (hmarker : PROJECT_FILES.any (fun n => fs.exists (pjoin pp n)) = true)
    (hdata : fs.exists (pjoin pp "data") = false) :
    ProjectManager.validate fs pp = (false, ["Missing data/ directory"]) := by
  simp [ProjectManager.validate, hmarker, hdata]

/-- A root with the marker file present and no data directory. -/
def c9fsMarked : FS :=
  { files := fun q =>
      if q = "proj/Game.rmmzproject" then some (.obj []) else none,
    dirs := fun _ => false }

theorem C9_validate_missing_data_witness :
    (PROJECT_FILES.any (fun n => c9fsMarked.exists (pjoin "proj" n)) = true) ∧
    (c9fsMarked.exists (pjoin "proj" "data") = false) ∧
    ProjectManager.validate c9fsMarked "proj" =
      (false, ["Missing data/ directory"]) :=
  ⟨rfl, rfl, C9_validate_missing_data c9fsMarked "proj" rfl rfl⟩

/-- C10: the read-only operations list, get, search and current return the
filesystem exactly as given in every branch (success or failure), so no
document is written and the ledger counter is unchanged by any of them. -/
theorem C10_reads_are_pure (fs : FS) (dp sp q : String)
    (fields : List String) (id : Nat) :
    (DatabaseManager.list fs dp).1 = fs ∧
    (DatabaseManager.get fs dp id).1 = fs ∧
    (DatabaseManager.search fs dp q fields).1 = fs ∧
    (VersionSync.current fs sp).1 = fs := by
  have hl : (DatabaseManager.list fs dp).1 = fs := by
    rcases hra : DatabaseManager.readArray fs dp with e | l <;>
      simp [DatabaseManager.list, hra]
  refine ⟨hl, ?_, ?_, ?_⟩
  · rcases hra : DatabaseManager.readArray fs dp with e | l <;>
      simp [DatabaseManager.get, hra, apply_ite Prod.fst]
  · rcases hls : DatabaseManager.list fs dp with ⟨fs2, r⟩
    have hfs2 : fs2 = fs := by
      have := hl
      rw [hls] at this
      exact this
    subst hfs2
    rcases r with e | es <;> simp [DatabaseManager.search, hls]
  · rcases hrr : FileHandler.readJsonRaw fs sp with e | j <;>
      simp [VersionSync.current, hrr]

/-- C2: a nonempty sequence of successful mutating operations on one entity
document leaves the ledger counter strictly greater than before, by exactly
the number of operations performed. -/
theorem C2_ledger_monotonicity (F : Nat → List (String × Json))
    (dp sp : String) (fs fs' : FS) (ops : List Op) (l : List Json)
    (sflds : List (String × Json)) (sep : PathsSeparate dp sp)
    (hd : fs.files dp = some (.arr l)) (hs : fs.files sp = some (.obj sflds))
    (hrun : runOps F dp sp fs ops = some fs') (hne : ops ≠ []) :
    ∃ v v', (VersionSync.current fs sp).2 = .ok v ∧
      (VersionSync.current fs' sp).2 = .ok v' ∧
      v' = v + ops.length ∧ v < v' := by
  obtain ⟨l2, sflds2, hd2, hs2, hv2, hlen2⟩ :=
    runOps_state F dp sp sep ops fs fs' l sflds hd hs hrun
  refine ⟨versionIdOf (.obj sflds), versionIdOf (.obj sflds2), ?_, ?_, hv2, ?_⟩
  · rw [current_eq fs sp _ hs]
  · rw [current_eq fs' sp _ hs2]
  · rw [hv2]
    have hpos : 1 ≤ ops.length := List.length_pos.mpr hne
    omega

/-- The mutating sequence run in the C2 witness: one create, one update,
one delete. -/
def opsT : List Op :=
  [Op.create [("name", .str "Second"), ("value", .num 20)],
   Op.update 1 [("name", .str "Renamed")],
   Op.delete 2 false]

/-- The state after running `opsT` from the seeded test filesystem. -/
def fsT2 : FS := (runOps FT dpT spT fsT opsT).getD fsT

theorem C2_ledger_monotonicity_witness :
    PathsSeparate dpT spT ∧
    fsT.files dpT = some (.arr [Json.null, recFirst]) ∧
    fsT.files spT = some (.obj sfldsT) ∧
    runOps FT dpT spT fsT opsT = some fsT2 ∧ opsT ≠ [] ∧
    (∃ v v', (VersionSync.current fsT spT).2 = .ok v ∧
      (VersionSync.current fsT2 spT).2 = .ok v' ∧
      v' = v + opsT.length ∧ v < v') :=
  ⟨by unfold PathsSeparate; decide, rfl, rfl, rfl,
   by simp only [opsT]; exact List.cons_ne_nil _ _,
   C2_ledger_monotonicity FT dpT spT fsT fsT2 opsT [Json.null, recFirst]
     sfldsT (by unfold PathsSeparate; decide) rfl rfl rfl
     (by simp only [opsT]; exact List.cons_ne_nil _ _)⟩

/-- C3: Create on a document of length L returns id = L and an entity whose
"id" field is forced to L and whose every other field is the caller's value
when supplied, else the default factory's value; the entity is appended as
the new trailing slot. -/
theorem C3_create_semantics (F : Nat → List (String × Json)) (fs : FS)
    (dp sp : String) (P : List (String × Json)) (l : List Json)
    (sflds : List (String × Json)) (sep : PathsSeparate dp sp)
    (hd : fs.files dp = some (.arr l)) (hs : fs.files sp = some (.obj sflds))
    (hP : (P.map Prod.fst).Nodup) :
    ∃ fs2 E,
      DatabaseManager.create F fs dp sp P = (fs2, .ok (l.length, Json.obj E)) ∧
      fs2.files dp = some (.arr (l ++ [Json.obj E])) ∧
      lookupField E "id" = some (.num l.length) ∧
      (∀ k, k ≠ "id" → lookupField E k =
        optOr (lookupField P k) (lookupField (F l.length) k)) := by
  have hra := readArray_eq fs dp l hd
  obtain ⟨fsw, hw, h1, h2⟩ := writeArray_ok fs dp sp
    (l ++ [Json.obj (setFieldList (spread (F l.length) P) "id"
      (.num l.length))]) sflds sep hs
  refine ⟨fsw, setFieldList (spread (F l.length) P) "id" (.num l.length),
    ?_, h1, lookupField_setFieldList_self _ _ _, ?_⟩
  · simp only [DatabaseManager.create, hra, hw]
  · intro k hk
    rw [lookupField_setFieldList_ne _ _ _ _ hk, lookupField_spread _ _ _ hP]

/-- The caller partial of the C3 scenario. -/
def pT : List (String × Json) := [("name", .str "Second"), ("value", .num 20)]

/-- The record the C3 scenario expects to be created. -/
def recSecond : Json :=
  .obj [("id", .num 2), ("name", .str "Second"), ("value", .num 20)]

theorem C3_create_semantics_witness :
    PathsSeparate dpT spT ∧
    fsT.files dpT = some (.arr [Json.null, recFirst]) ∧
    fsT.files spT = some (.obj sfldsT) ∧ (pT.map Prod.fst).Nodup ∧
    (∃ fs2 E, DatabaseManager.create FT fsT dpT spT pT =
        (fs2, .ok ([Json.null, recFirst].length, Json.obj E)) ∧
      fs2.files dpT = some (.arr ([Json.null, recFirst] ++ [Json.obj E])) ∧
      lookupField E "id" = some (.num [Json.null, recFirst].length) ∧
      (∀ k, k ≠ "id" → lookupField E k =
        optOr (lookupField pT k)
          (lookupField (FT [Json.null, recFirst].length) k))) ∧
    (DatabaseManager.create FT fsT dpT spT pT).2 = .ok (2, recSecond) ∧
    (DatabaseManager.list (DatabaseManager.create FT fsT dpT spT pT).1
      dpT).2 = .ok [recFirst, recSecond] :=
  ⟨by unfold PathsSeparate; decide, rfl, rfl, by decide,
   C3_create_semantics FT fsT dpT spT pT [Json.null, recFirst] sfldsT
     (by unfold PathsSeparate; decide) rfl rfl (by decide),
   rfl, rfl⟩

/-- C4: a successful Delete(K) nulls exactly slot K, keeps the array length,
and leaves Get(J) observationally identical for every J ≠ K. -/
theorem C4_delete_frame (fs : FS) (dp sp : String) (K : Nat) (pf : Bool)
    (l : List Json) (sflds : List (String × Json)) (sep : PathsSeparate dp sp)
    (hd : fs.files dp = some (.arr l)) (hs : fs.files sp = some (.obj sflds))
    (hK1 : 1 ≤ K) (hK2 : K < l.length)
    (hKn : (slotAt l K).isNull = false)
    (hpfK : ¬ (pf = true ∧ K = 1)) :
    ∃ fs2, DatabaseManager.delete fs dp sp K pf = (fs2, .ok ()) ∧
      fs2.files dp = some (.arr (l.set K Json.null)) ∧
      (l.set K Json.null).length = l.length ∧
      slotAt (l.set K Json.null) K = Json.null ∧
      (∀ J, J ≠ K →
        (DatabaseManager.get fs2 dp J).2 = (DatabaseManager.get fs dp J).2) := by
  have hra := readArray_eq fs dp l hd
  have hpf : (pf && K == 1) = false := by
    apply Bool.eq_false_iff.mpr
    intro hcontra
    obtain ⟨hp, hk⟩ := Bool.and_eq_true_iff.mp hcontra
    exact hpfK ⟨hp, by simpa using hk⟩
  have hcond : ¬ (K < 1 ∨ l.length ≤ K ∨ (slotAt l K).isNull = true) := by
    rintro (h | h | h)
    · omega
    · omega
    · rw [hKn] at h
      simp at h
  obtain ⟨fsw, hw, h1, h2⟩ :=
    writeArray_ok fs dp sp (l.set K Json.null) sflds sep hs
  have hdel : DatabaseManager.delete fs dp sp K pf = (fsw, .ok ()) := by
    simp only [DatabaseManager.delete]
    rw [if_neg (by rw [hpf]; simp : ¬ (pf && K == 1) = true)]
    simp only [hra]
    rw [if_neg hcond, hw]
  refine ⟨fsw, hdel, h1, by simp, ?_, ?_⟩
  · have hset : (l.set K Json.null)[K]? = some Json.null :=
      List.getElem?_set_self (by omega)
    simp [slotAt, List.getD_eq_getElem?_getD, hset]
  · intro J hJ
    have hra2 : DatabaseManager.readArray fsw dp = .ok (l.set K Json.null) :=
      readArray_eq fsw dp _ h1
    have hslot : slotAt (l.set K Json.null) J = slotAt l J := by
      simp [slotAt, List.getD_eq_getElem?_getD,
        List.getElem?_set_ne (fun he => hJ he.symm)]
    simp only [DatabaseManager.get, hra2, hra, hslot, List.length_set]
    rcases Classical.em
      (J < 1 ∨ l.length ≤ J ∨ (slotAt l J).isNull = true) with hc | hc
    · rw [if_pos hc, if_pos hc]
    · rw [if_neg hc, if_neg hc]

/-- The two-record entity document for the C4 witness run. -/
def itemsDoc2T : Json := .arr [Json.null, recFirst, recSecond]

/-- Filesystem seeding the two-record document plus the ledger. -/
def fsT4 : FS :=
  { files := fun q =>
      if q = dpT then some itemsDoc2T
      else if q = spT then some sysDocT else none,
    dirs := fun _ => false }

theorem C4_delete_frame_witness :
    PathsSeparate dpT spT ∧
    fsT4.files dpT = some (.arr [Json.null, recFirst, recSecond]) ∧
    fsT4.files spT = some (.obj sfldsT) ∧
    1 ≤ 2 ∧ 2 < [Json.null, recFirst, recSecond].length ∧
    (slotAt [Json.null, recFirst, recSecond] 2).isNull = false ∧
    ¬ (false = true ∧ 2 = 1) ∧
    (∃ fs2, DatabaseManager.delete fsT4 dpT spT 2 false = (fs2, .ok ()) ∧
      fs2.files dpT =
        some (.arr ([Json.null, recFirst, recSecond].set 2 Json.null)) ∧
      ([Json.null, recFirst, recSecond].set 2 Json.null).length =
        [Json.null, recFirst, recSecond].length ∧
      slotAt ([Json.null, recFirst, recSecond].set 2 Json.null) 2 =
        Json.null ∧
      (∀ J, J ≠ 2 → (DatabaseManager.get fs2 dpT J).2 =
        (DatabaseManager.get fsT4 dpT J).2)) :=
  ⟨by unfold PathsSeparate; decide, rfl, rfl, by decide, by decide, rfl,
   by decide,
   C4_delete_frame fsT4 dpT spT 2 false [Json.null, recFirst, recSecond]
     sfldsT (by unfold PathsSeparate; decide) rfl rfl (by decide) (by decide)
     rfl (by decide)⟩

/-- A fresh project: entity document seeded with the sentinel only. -/
def fsT7 : FS :=
  { files := fun q =>
      if q = dpT then some (.arr [Json.null])
      else if q = spT then some sysDocT else none,
    dirs := fun _ => false }

/-- C7 counterexample: on a document seeded `[null]`, the first Create call
returns id 1, not 1 + 1 = 2 as the claim's "n-th call returns n + 1" reads
for n = 1. -/
theorem C7_counterexample :
    (DatabaseManager.create FT fsT7 dpT spT [("name", .str "A")]).2 =
      .ok (1, .obj [("id", .num 1), ("name", .str "A"), ("value", .num 0)]) ∧
    (1 : Nat) ≠ 1 + 1 :=
  ⟨rfl, by decide⟩

/-- C7 (amended): after any successful sequence of mutating operations on a
document seeded `[null]` containing n creates (deletes and updates freely
interleaved), the next Create returns id = n + 1; that is, the n-th create
(1-indexed) returns id = n even across deletions. -/
theorem C7_append_monotonic_ids (F : Nat → List (String × Json))
    (dp sp : String) (fs fs' : FS) (ops : List Op)
    (P : List (String × Json)) (sflds : List (String × Json))
    (sep : PathsSeparate dp sp)
    (hd : fs.files dp = some (.arr [Json.null]))
    (hs : fs.files sp = some (.obj sflds))
    (hrun : runOps F dp sp fs ops = some fs') :
    (DatabaseManager.create F fs' dp sp P).2.map Prod.fst =
      .ok (countCreates ops + 1) := by
  obtain ⟨l2, sflds2, hd2, hs2, hv2, hlen2⟩ :=
    runOps_state F dp sp sep ops fs fs' [Json.null] sflds hd hs hrun
  have hra := readArray_eq fs' dp l2 hd2
  obtain ⟨fsw, hw, h1, h2⟩ := writeArray_ok fs' dp sp
    (l2 ++ [Json.obj (setFieldList (spread (F l2.length) P) "id"
      (.num l2.length))]) sflds2 sep hs2
  have hc : DatabaseManager.create F fs' dp sp P =
      (fsw, .ok (l2.length, Json.obj (setFieldList (spread (F l2.length) P)
        "id" (.num l2.length)))) := by
    simp only [DatabaseManager.create, hra, hw]
  rw [hc]
  simp only [Except.map, Prod.fst]
  rw [hlen2]
  simp [Nat.add_comm]

/-- The C7 witness sequence: one create followed by deleting it again. -/
def opsT7 : List Op :=
  [Op.create [("name", .str "A")], Op.delete 1 false]

/-- The state after running `opsT7` from the fresh project. -/
def fsT7b : FS := (runOps FT dpT spT fsT7 opsT7).getD fsT7

theorem C7_append_monotonic_ids_witness :
    PathsSeparate dpT spT ∧
    fsT7.files dpT = some (.arr [Json.null]) ∧
    fsT7.files spT = some (.obj sfldsT) ∧
    runOps FT dpT spT fsT7 opsT7 = some fsT7b ∧
    (DatabaseManager.create FT fsT7b dpT spT
      [("name", .str "B")]).2.map Prod.fst = .ok 2 :=
  ⟨by unfold PathsSeparate; decide, rfl, rfl, rfl,
   (C7_append_monotonic_ids FT dpT spT fsT7 fsT7b opsT7
     [("name", .str "B")] sfldsT (by unfold PathsSeparate; decide)
     rfl rfl rfl).trans rfl⟩

/-- C8: bump on an object-shaped ledger returns old + 1 (a missing or
non-numeric counter reading as 0 via versionIdOf), persists the new counter
so a following current read returns it, and preserves every sibling field
of the ledger document. -/
theorem C8_bump_semantics (fs : FS) (sp : String)
    (sflds : List (String × Json))
    (hs : fs.files sp = some (.obj sflds)) :
    (VersionSync.bump fs sp).2 = .ok (versionIdOf (.obj sflds) + 1) ∧
    (VersionSync.current (VersionSync.bump fs sp).1 sp).2 =
      .ok (versionIdOf (.obj sflds) + 1) ∧
    (∀ k, k ≠ "versionId" →
      ((VersionSync.bump fs sp).1.files sp).bind (fun j => j.getField k) =
        (Json.obj sflds).getField k) := by
  have hb := bump_eq fs sp (.obj sflds) hs
  have hfsp : (VersionSync.bump fs sp).1.files sp =
      some ((Json.obj sflds).setField "versionId"
        (.num (versionIdOf (.obj sflds) + 1))) := by
    rw [hb]
    exact writeJsonWith_files_self false _ sp _
  refine ⟨by rw [hb], ?_, ?_⟩
  · rw [current_eq ((VersionSync.bump fs sp).1) sp _ hfsp]
    simp only []
    rw [versionIdOf_setField (.obj sflds) sflds rfl]
  · intro k hk
    rw [hfsp]
    exact getField_setField_ne sflds "versionId"
      (.num (versionIdOf (.obj sflds) + 1)) k hk

theorem C8_bump_semantics_witness :
    fsT.files spT = some (.obj sfldsT) ∧
    ((VersionSync.bump fsT spT).2 = .ok (versionIdOf (.obj sfldsT) + 1) ∧
      (VersionSync.current (VersionSync.bump fsT spT).1 spT).2 =
        .ok (versionIdOf (.obj sfldsT) + 1) ∧
      (∀ k, k ≠ "versionId" →
        ((VersionSync.bump fsT spT).1.files spT).bind
          (fun j => j.getField k) = (Json.obj sfldsT).getField k)) ∧
    (VersionSync.bump fsT spT).2 = .ok 1 ∧
    (VersionSync.bump fsT spT).1.files spT =
      some (.obj [("versionId", .num 1), ("gameTitle", .str "Test")]) :=
  ⟨rfl, C8_bump_semantics fsT spT sfldsT rfl, rfl, rfl⟩
